import Mathlib

/-!
Verification of the rust-aggregator DEX route aggregator.

This file is a shallow embedding of the core of the repository
(src/utils.rs, src/types.rs, src/quote.rs, src/router.rs, src/lib.rs):

* 256-bit amounts (the Rust `U256` type) are modelled as `Nat` together
  with explicit `< 2 ^ 256` overflow checks in the checked operations;
  `u128` is modelled likewise with `2 ^ 128`.
* fallible Rust functions returning `Result<T, AggregatorError>` become
  `Except AggregatorError T`; the `String` payloads of the error
  constructors are elided (only the constructor identity matters here).
* Rust `&str` values are modelled as `List Char`.
* the floating-point route score and the display-only route description
  are elided from `RouteQuote`; no theorem below concerns them.
-/

/-- Size bound of the 256-bit unsigned integer type `U256`. -/
def U256_LIMIT : Nat := 2 ^ 256

/-- Size bound of the 128-bit unsigned integer type `u128`. -/
def U128_LIMIT : Nat := 2 ^ 128

/-- Error taxonomy from src/types.rs, with message payloads elided. -/
inductive AggregatorError where
  | RpcError
  | PoolNotFound
  | InsufficientLiquidity
  | NoRouteFound
  | InvalidTokenAddress
  | InvalidAmount
  | ConfigError
  | CacheError
  | ParseError
  | ContractError
  | MathError
  deriving DecidableEq, Repr

deriving instance DecidableEq for Except

/-- Checked 256-bit multiplication (`U256::checked_mul`). -/
def checked_mul (a b : Nat) : Option Nat :=
  if a * b < U256_LIMIT then some (a * b) else none

/-- Checked 256-bit addition (`U256::checked_add`). -/
def checked_add (a b : Nat) : Option Nat :=
  if a + b < U256_LIMIT then some (a + b) else none

/-- Checked 256-bit division (`U256::checked_div`): fails only on a zero
divisor. -/
def checked_div (a b : Nat) : Option Nat :=
  if b = 0 then none else some (a / b)

/-- Constant-product output formula, from `calculate_uniswap_v2_output` in
src/utils.rs.  The Rust locals `fee_factor` and `fee_base` are inlined; the
subtraction `10000 - fee_bps` is `Nat` (truncated) subtraction, which agrees
with the Rust `u32` subtraction whenever `fee_bps ≤ 10000`. -/
def calculate_uniswap_v2_output (amount_in reserve_in reserve_out fee_bps : Nat) :
    Except AggregatorError Nat :=
  if amount_in = 0 then .error .InvalidAmount
  else if reserve_in = 0 ∨ reserve_out = 0 then .error .InsufficientLiquidity
  else
    match checked_mul amount_in (10000 - fee_bps) with
    | none => .error .MathError
    | some amount_in_with_fee =>
      match checked_mul amount_in_with_fee reserve_out with
      | none => .error .MathError
      | some numerator =>
        match checked_mul reserve_in 10000 with
        | none => .error .MathError
        | some d1 =>
          match checked_add d1 amount_in_with_fee with
          | none => .error .MathError
          | some denominator =>
            match checked_div numerator denominator with
            | none => .error .MathError
            | some amount_out =>
              if amount_out = 0 then .error .InsufficientLiquidity
              else .ok amount_out

/-- Characterization of the success case of `calculate_uniswap_v2_output`. -/
theorem calc_ok_iff (a ri ro fee o : Nat) :
    calculate_uniswap_v2_output a ri ro fee = .ok o ↔
      (a ≠ 0 ∧ ri ≠ 0 ∧ ro ≠ 0 ∧
       a * (10000 - fee) < U256_LIMIT ∧
       a * (10000 - fee) * ro < U256_LIMIT ∧
       ri * 10000 < U256_LIMIT ∧
       ri * 10000 + a * (10000 - fee) < U256_LIMIT ∧
       o = a * (10000 - fee) * ro / (ri * 10000 + a * (10000 - fee)) ∧
       o ≠ 0) := by
  constructor
  · intro h
    by_cases h1 : a = 0
    · simp [calculate_uniswap_v2_output, h1] at h
    by_cases h2 : ri = 0 ∨ ro = 0
    · simp [calculate_uniswap_v2_output, h1, h2] at h
    push_neg at h2
    by_cases h4 : a * (10000 - fee) < U256_LIMIT
    · by_cases h5 : a * (10000 - fee) * ro < U256_LIMIT
      · by_cases h6 : ri * 10000 < U256_LIMIT
        · by_cases h7 : ri * 10000 + a * (10000 - fee) < U256_LIMIT
          · have hden : ri * 10000 + a * (10000 - fee) ≠ 0 := by
              have : ri * 10000 ≠ 0 := Nat.mul_ne_zero h2.1 (by norm_num)
              omega
            by_cases h9 : a * (10000 - fee) * ro / (ri * 10000 + a * (10000 - fee)) = 0
            · simp [calculate_uniswap_v2_output, checked_mul, checked_add, checked_div,
                h1, h2.1, h2.2, h4, h5, h6, h7, hden, h9] at h
            · simp [calculate_uniswap_v2_output, checked_mul, checked_add, checked_div,
                h1, h2.1, h2.2, h4, h5, h6, h7, hden, h9] at h
              exact ⟨h1, h2.1, h2.2, h4, h5, h6, h7, h.symm, by rw [← h]; exact h9⟩
          · simp [calculate_uniswap_v2_output, checked_mul, checked_add, checked_div,
              h1, h2.1, h2.2, h4, h5, h6, h7] at h
        · simp [calculate_uniswap_v2_output, checked_mul, checked_add, checked_div,
            h1, h2.1, h2.2, h4, h5, h6] at h
      · simp [calculate_uniswap_v2_output, checked_mul, checked_add, checked_div,
          h1, h2.1, h2.2, h4, h5] at h
    · simp [calculate_uniswap_v2_output, checked_mul, checked_add, checked_div,
        h1, h2.1, h2.2, h4] at h
  · rintro ⟨h1, h2, h3, h4, h5, h6, h7, rfl, h9⟩
    have hden : ri * 10000 + a * (10000 - fee) ≠ 0 := by
      have : ri * 10000 ≠ 0 := Nat.mul_ne_zero h2 (by norm_num)
      omega
    simp [calculate_uniswap_v2_output, checked_mul, checked_add, checked_div,
      h1, h2, h3, h4, h5, h6, h7, hden, h9]

/-- C1: full case analysis of `calculate_uniswap_v2_output`: zero input fails
with InvalidAmount, a zero reserve fails with InsufficientLiquidity, any
256-bit overflow in the checked multiplications/additions fails with
MathError, and otherwise the floor formula is returned, except that a zero
output fails with InsufficientLiquidity. -/
theorem uniswap_v2_output_cases (a ri ro fee : Nat)
    (hfee : fee < 10000) (ha : a < U256_LIMIT) (hri : ri < U256_LIMIT)
    (hro : ro < U256_LIMIT) :
    (a = 0 → calculate_uniswap_v2_output a ri ro fee = .error .InvalidAmount) ∧
    (a ≠ 0 → (ri = 0 ∨ ro = 0) →
      calculate_uniswap_v2_output a ri ro fee = .error .InsufficientLiquidity) ∧
    (a ≠ 0 → ri ≠ 0 → ro ≠ 0 →
      (U256_LIMIT ≤ a * (10000 - fee) ∨ U256_LIMIT ≤ a * (10000 - fee) * ro ∨
       U256_LIMIT ≤ ri * 10000 ∨
       U256_LIMIT ≤ ri * 10000 + a * (10000 - fee)) →
      calculate_uniswap_v2_output a ri ro fee = .error .MathError) ∧
    (a ≠ 0 → ri ≠ 0 → ro ≠ 0 →
      a * (10000 - fee) < U256_LIMIT → a * (10000 - fee) * ro < U256_LIMIT →
      ri * 10000 < U256_LIMIT → ri * 10000 + a * (10000 - fee) < U256_LIMIT →
      ((a * (10000 - fee) * ro / (ri * 10000 + a * (10000 - fee)) ≠ 0 →
        calculate_uniswap_v2_output a ri ro fee =
          .ok (a * (10000 - fee) * ro / (ri * 10000 + a * (10000 - fee)))) ∧
       (a * (10000 - fee) * ro / (ri * 10000 + a * (10000 - fee)) = 0 →
        calculate_uniswap_v2_output a ri ro fee =
          .error .InsufficientLiquidity))) := by
  refine ⟨?_, ?_, ?_, ?_⟩
  · intro h1
    simp [calculate_uniswap_v2_output, h1]
  · intro h1 h2
    simp [calculate_uniswap_v2_output, h1, h2]
  · intro h1 h2 h3 hover
    by_cases b1 : a * (10000 - fee) < U256_LIMIT
    · by_cases b2 : a * (10000 - fee) * ro < U256_LIMIT
      · by_cases b3 : ri * 10000 < U256_LIMIT
        · by_cases b4 : ri * 10000 + a * (10000 - fee) < U256_LIMIT
          · exfalso
            rcases hover with h | h | h | h <;> omega
          · simp [calculate_uniswap_v2_output, checked_mul, checked_add,
              h1, h2, h3, b1, b2, b3, b4]
        · simp [calculate_uniswap_v2_output, checked_mul, checked_add,
            h1, h2, h3, b1, b2, b3]
      · simp [calculate_uniswap_v2_output, checked_mul, checked_add,
          h1, h2, h3, b1, b2]
    · simp [calculate_uniswap_v2_output, checked_mul, checked_add, h1, h2, h3, b1]
  · intro h1 h2 h3 b1 b2 b3 b4
    have hden : ri * 10000 + a * (10000 - fee) ≠ 0 := by
      have : ri * 10000 ≠ 0 := Nat.mul_ne_zero h2 (by norm_num)
      omega
    constructor
    · intro hnz
      exact (calc_ok_iff a ri ro fee _).2 ⟨h1, h2, h3, b1, b2, b3, b4, rfl, hnz⟩
    · intro hz
      simp [calculate_uniswap_v2_output, checked_mul, checked_add, checked_div,
        h1, h2, h3, b1, b2, b3, b4, hden, hz]

/-- Witness for the C1 theorem at a concrete input. -/
theorem uniswap_v2_output_cases_witness :
    calculate_uniswap_v2_output 1 1 2 0 = .ok 1 := by
  have h := (uniswap_v2_output_cases 1 1 2 0 (by norm_num) (by decide) (by decide)
    (by decide)).2.2.2
  have h2 := (h (by decide) (by decide) (by decide) (by decide) (by decide)
    (by decide) (by decide)).1 (by decide)
  simpa using h2

/-- Helper: cross-multiplied comparison implies ordering of floor divisions. -/
theorem div_le_div_of_cross (p q r s : Nat) (hs : 0 < s) (h : p * s ≤ r * q) :
    p / q ≤ r / s := by
  rcases Nat.eq_zero_or_pos q with hq | hq
  · simp [hq]
  · rw [Nat.le_div_iff_mul_le hs]
    have h1 : p / q * q ≤ p := Nat.div_mul_le_self p q
    have h2 : p / q * s * q ≤ p * s := by
      calc p / q * s * q = p / q * q * s := by ring
        _ ≤ p * s := Nat.mul_le_mul_right _ h1
    exact Nat.le_of_mul_le_mul_right (le_trans h2 h) hq

/-- Counterexample to C3 as stated: at `(a, r_in, r_out, fee) = (1, 1, 2, 0)`
doubling the input does not strictly increase the output (both outputs
are 1), and at `(1, 1000, 2000, 30)` with a nonzero fee the doubled input
yields 3, which is not strictly less than double the original output 2·1. -/
theorem doubling_not_strict_counterexample :
    calculate_uniswap_v2_output 1 1 2 0 = .ok 1 ∧
    calculate_uniswap_v2_output 2 1 2 0 = .ok 1 ∧
    ¬ (1 : Nat) < 1 ∧
    calculate_uniswap_v2_output 1 1000 2000 30 = .ok 1 ∧
    calculate_uniswap_v2_output 2 1000 2000 30 = .ok 3 ∧
    ¬ (3 : Nat) < 2 * 1 := by
  refine ⟨by decide, by decide, by decide, by decide, by decide, by decide⟩

/-- C3 (amended): on the same pool, doubling the input yields a
greater-or-equal output, and at most double-plus-one the original output.
The strict versions claimed by the spec fail on the integer floor
division (see the counterexample). -/
theorem uniswap_v2_output_doubling (a ri ro fee o1 o2 : Nat)
    (ha : 0 < a) (hri : 0 < ri) (hro : 0 < ro) (hfee : fee < 10000)
    (h1 : calculate_uniswap_v2_output a ri ro fee = .ok o1)
    (h2 : calculate_uniswap_v2_output (2 * a) ri ro fee = .ok o2) :
    o1 ≤ o2 ∧ o2 ≤ 2 * o1 + 1 := by
  obtain ⟨-, -, -, -, -, -, -, ho1, -⟩ := (calc_ok_iff a ri ro fee o1).1 h1
  obtain ⟨-, -, -, -, -, -, -, ho2, -⟩ := (calc_ok_iff (2 * a) ri ro fee o2).1 h2
  set x := a * (10000 - fee) with hx
  set D := ri * 10000 with hD
  have hx2 : 2 * a * (10000 - fee) = 2 * x := by rw [hx]; ring
  rw [hx2] at ho2
  have hDpos : 0 < D := by
    have : 0 < ri * 10000 := Nat.mul_pos hri (by norm_num)
    omega
  have hxpos : 0 < x := Nat.mul_pos ha (by omega)
  constructor
  · rw [ho1, ho2]
    refine div_le_div_of_cross (x * ro) (D + x) (2 * x * ro) (D + 2 * x)
      (by omega) ?_
    have e1 : x * ro * (D + 2 * x) = x * ro * D + 2 * (x * x * ro) := by ring
    have e2 : 2 * x * ro * (D + x) = 2 * (x * ro * D) + 2 * (x * x * ro) := by ring
    rw [e1, e2]
    have h0 : 0 ≤ x * ro * D := Nat.zero_le _
    linarith
  · have hmod := Nat.div_add_mod (x * ro) (D + x)
    have hrem : x * ro % (D + x) < D + x := Nat.mod_lt _ (by omega)
    have hlt : 2 * x * ro < (2 * o1 + 2) * (D + 2 * x) := by
      have hexp : 2 * x * ro = 2 * ((D + x) * (x * ro / (D + x)) + x * ro % (D + x)) := by
        rw [hmod]; ring
      rw [hexp, ← ho1]
      have e3 : 2 * ((D + x) * o1 + x * ro % (D + x)) =
          2 * (D * o1) + 2 * (x * o1) + 2 * (x * ro % (D + x)) := by ring
      have e4 : (2 * o1 + 2) * (D + 2 * x) =
          2 * (D * o1) + 4 * (x * o1) + 2 * D + 4 * x := by ring
      rw [e3, e4]
      have h0 : 0 ≤ x * o1 := Nat.zero_le _
      linarith
    have hfin : 2 * x * ro / (D + 2 * x) < 2 * o1 + 2 :=
      (Nat.div_lt_iff_lt_mul (show 0 < D + 2 * x by omega)).2 hlt
    rw [ho2]
    omega

/-- Witness for the amended C3 theorem at a concrete input. -/
theorem uniswap_v2_output_doubling_witness :
    (1 : Nat) ≤ 3 ∧ (3 : Nat) ≤ 2 * 1 + 1 :=
  uniswap_v2_output_doubling 1 1000 2000 30 1 3 (by decide) (by decide)
    (by decide) (by decide) (by decide) (by decide)

/-- C5: whenever `calculate_uniswap_v2_output` succeeds on a pool with
positive reserves and `fee_bps < 10000`, the output is strictly below
`reserve_out`, and it is strictly positive whenever the formula numerator
exceeds the denominator. -/
theorem uniswap_v2_output_bounded (a ri ro fee o : Nat)
    (ha : 0 < a) (hri : 0 < ri) (hro : 0 < ro) (hfee : fee < 10000)
    (h : calculate_uniswap_v2_output a ri ro fee = .ok o) :
    o < ro ∧
    (ri * 10000 + a * (10000 - fee) < a * (10000 - fee) * ro → 0 < o) := by
  obtain ⟨-, -, -, -, -, -, -, ho, hnz⟩ := (calc_ok_iff a ri ro fee o).1 h
  constructor
  · rw [ho]
    refine (Nat.div_lt_iff_lt_mul ?_).2 ?_
    · have : 0 < ri * 10000 := Nat.mul_pos hri (by norm_num)
      omega
    · nlinarith [Nat.mul_pos hri hro]
  · intro _
    exact Nat.pos_of_ne_zero hnz

/-- Witness for the C5 theorem at a concrete input. -/
theorem uniswap_v2_output_bounded_witness :
    (1 : Nat) < 200 ∧
    (100 * 10000 + 1 * (10000 - 30) < 1 * (10000 - 30) * 200 → (0 : Nat) < 1) :=
  uniswap_v2_output_bounded 1 100 200 30 1 (by decide) (by decide) (by decide)
    (by decide) (by decide)

/-- Price impact in basis points, from `calculate_price_impact` in
src/utils.rs.  `saturating_sub` is `Nat` (truncated) subtraction.  The final
Rust expression is `impact.as_u32().min(10000)`; `as_u32` panics above
`2^32 - 1` and is modelled as the identity, which `price_impact_pre_le`
below justifies (the value never exceeds 10000). -/
def calculate_price_impact (amount_in reserve_in amount_out reserve_out : Nat) : Nat :=
  if reserve_in = 0 ∨ reserve_out = 0 then 10000
  else
    match checked_mul amount_in reserve_out with
    | none => 10000
    | some val =>
      match checked_mul amount_out reserve_in with
      | none => 10000
      | some val2 =>
        let numerator := val - val2
        match checked_mul amount_in reserve_out with
        | none => 10000
        | some denominator =>
          if denominator = 0 then 10000
          else
            let impact :=
              match checked_mul numerator 10000 with
              | none => 10000
              | some v =>
                match checked_div v denominator with
                | none => 10000
                | some q => q
            min impact 10000

/-- Value of the local `impact` in `calculate_price_impact` on its main
path, i.e. the `U256` value that the Rust code converts with `as_u32`. -/
def price_impact_pre (amount_in reserve_in amount_out reserve_out : Nat) : Nat :=
  match checked_mul (amount_in * reserve_out - amount_out * reserve_in) 10000 with
  | none => 10000
  | some v =>
    match checked_div v (amount_in * reserve_out) with
    | none => 10000
    | some q => q

/-- Helper: the pre-conversion impact value never exceeds 10000, so the
Rust `as_u32` conversion cannot panic. -/
theorem price_impact_pre_le (a ri ao ro : Nat) :
    price_impact_pre a ri ao ro ≤ 10000 := by
  unfold price_impact_pre checked_mul checked_div
  by_cases h1 : (a * ro - ao * ri) * 10000 < U256_LIMIT
  · simp only [h1, if_true]
    by_cases h2 : a * ro = 0
    · simp [h2]
    · simp only [h2, if_false]
      have hle : (a * ro - ao * ri) * 10000 ≤ a * ro * 10000 :=
        Nat.mul_le_mul_right _ (Nat.sub_le _ _)
      calc (a * ro - ao * ri) * 10000 / (a * ro)
          ≤ a * ro * 10000 / (a * ro) := Nat.div_le_div_right hle
        _ = 10000 := by
            rw [Nat.mul_comm (a * ro) 10000]
            exact Nat.mul_div_cancel _ (Nat.pos_of_ne_zero h2)
  · simp [h1]

/-- C4: `calculate_price_impact` always lands in `[0, 10000]`: zero reserves
yield 10000, overflow of any intermediate product yields 10000, and the
value converted from `U256` to `u32` never exceeds 10000, so the conversion
is safe. -/
theorem price_impact_in_range (a ri ao ro : Nat) :
    calculate_price_impact a ri ao ro ≤ 10000 ∧
    ((ri = 0 ∨ ro = 0) → calculate_price_impact a ri ao ro = 10000) ∧
    (ri ≠ 0 → ro ≠ 0 →
      (U256_LIMIT ≤ a * ro ∨ U256_LIMIT ≤ ao * ri ∨
       U256_LIMIT ≤ (a * ro - ao * ri) * 10000) →
      calculate_price_impact a ri ao ro = 10000) ∧
    price_impact_pre a ri ao ro ≤ 10000 := by
  refine ⟨?_, ?_, ?_, price_impact_pre_le a ri ao ro⟩
  · unfold calculate_price_impact
    by_cases h0 : ri = 0 ∨ ro = 0
    · simp [h0]
    · simp only [h0, if_false]
      unfold checked_mul checked_div
      by_cases h1 : a * ro < U256_LIMIT
      · simp only [h1, if_true]
        by_cases h2 : ao * ri < U256_LIMIT
        · simp only [h2, if_true]
          by_cases h3 : a * ro = 0
          · simp [h3]
          · simp only [h3, if_false, if_true]
            exact Nat.min_le_right _ _
        · simp [h2]
      · simp [h1]
  · intro h0
    simp [calculate_price_impact, h0]
  · intro hri hro hover
    unfold calculate_price_impact checked_mul checked_div
    have h0 : ¬ (ri = 0 ∨ ro = 0) := by tauto
    simp only [h0, if_false]
    by_cases h1 : a * ro < U256_LIMIT
    · simp only [h1, if_true]
      by_cases h2 : ao * ri < U256_LIMIT
      · simp only [h2, if_true]
        by_cases h3 : a * ro = 0
        · simp [h3]
        · simp only [h3, if_false, if_true]
          have h4 : ¬ (a * ro - ao * ri) * 10000 < U256_LIMIT := by
            rcases hover with h | h | h
            · omega
            · omega
            · omega
          simp [h4]
      · simp [h2]
    · simp [h1]

/-- Witness for the C4 theorem at a concrete input. -/
theorem price_impact_in_range_witness :
    calculate_price_impact 5 0 3 7 ≤ 10000 ∧
    calculate_price_impact 5 0 3 7 = 10000 := by
  have h := price_impact_in_range 5 0 3 7
  exact ⟨h.1, h.2.1 (Or.inl rfl)⟩

/-- Decimal digit character, used to model Rust's decimal `Display`. -/
def digitChar : Nat → Char
  | 0 => '0' | 1 => '1' | 2 => '2' | 3 => '3' | 4 => '4'
  | 5 => '5' | 6 => '6' | 7 => '7' | 8 => '8' | _ => '9'

/-- Fuel-driven accumulator loop producing the decimal digits of `n`
(most significant first) in front of `acc`.  Any fuel with `n < 10 ^ fuel`
is enough; the wrapper `natRepr` passes `n` itself. -/
def natToChars : Nat → Nat → List Char → List Char
  | 0, _, acc => acc
  | fuel + 1, n, acc =>
    if n = 0 then acc else natToChars fuel (n / 10) (digitChar (n % 10) :: acc)

/-- Decimal representation of a natural number, modelling the Rust
`Display` for `U256`/`u128` used by `format!`. -/
def natRepr (n : Nat) : List Char :=
  if n = 0 then ['0'] else natToChars n n []

/-- Numeric value of a digit string (the fold Rust's integer parsing
performs); non-digit characters are excluded by the callers' checks. -/
def charsToNat (cs : List Char) : Nat :=
  cs.foldl (fun a c => a * 10 + (c.toNat - 48)) 0

/-- Drop one optional leading `'+'` sign, as Rust's unsigned
`from_str` does. -/
def stripPlus : List Char → List Char
  | [] => []
  | c :: t => if c = '+' then t else c :: t

/-- Structural part of Rust's `str::parse::<u128>`: an optional leading
`'+'`, then at least one ASCII digit; yields the numeric value with no
range check. -/
def parseNum (cs : List Char) : Option Nat :=
  let ds := stripPlus cs
  if ds.isEmpty then none
  else if ds.all Char.isDigit then some (charsToNat ds) else none

/-- Rust's `str::parse::<u128>`: `parseNum` plus the `u128` range check. -/
def parse_u128 (cs : List Char) : Option Nat :=
  match parseNum cs with
  | none => none
  | some v => if v < U128_LIMIT then some v else none

/-- Rust's `str::split('.')` on the model strings: always returns at least
one (possibly empty) part. -/
def splitDot : List Char → List (List Char)
  | [] => [[]]
  | c :: cs =>
    if c = '.' then [] :: splitDot cs
    else
      match splitDot cs with
      | p :: ps => (c :: p) :: ps
      | [] => [[c]]

/-- Rust `format!("{:0>width$}", s)`: left-pad with `'0'` to `width`. -/
def padLeftZeros (width : Nat) (cs : List Char) : List Char :=
  List.replicate (width - cs.length) '0' ++ cs

/-- Rust `format!("{:0<width$}", s)`: right-pad with `'0'` to `width`. -/
def padRightZeros (width : Nat) (cs : List Char) : List Char :=
  cs ++ List.replicate (width - cs.length) '0'

/-- Rust `str::trim_end_matches('0')`. -/
def trimTrailingZeros (cs : List Char) : List Char :=
  (cs.reverse.dropWhile (· == '0')).reverse

/-- Checked `u128` multiplication. -/
def checked_mul_u128 (a b : Nat) : Option Nat :=
  if a * b < U128_LIMIT then some (a * b) else none

/-- Checked `u128` addition. -/
def checked_add_u128 (a b : Nat) : Option Nat :=
  if a + b < U128_LIMIT then some (a + b) else none

/-- Amount parsing from `parse_token_amount` in src/utils.rs.  The Rust
multiplier `10u128.pow(decimals as u32)` wraps modulo `2^128` in release
builds; for `decimals ≤ 38` (every use in this repository has
`decimals ≤ 18`) the modulus is the identity. -/
def parse_token_amount (cs : List Char) (decimals : Nat) :
    Except AggregatorError Nat :=
  let parts := splitDot cs
  if parts.isEmpty ∨ 2 < parts.length then .error .ParseError
  else
    match parse_u128 (parts.headD []) with
    | none => .error .ParseError
    | some integer_part =>
      match (if parts.length = 2 then
              let dec_str := parts.getD 1 []
              if decimals < dec_str.length then
                Except.error AggregatorError.ParseError
              else
                match parse_u128 (padRightZeros decimals dec_str) with
                | none => .error .ParseError
                | some dp => .ok dp
            else .ok 0) with
      | .error e => .error e
      | .ok decimal_part =>
        match checked_mul_u128 integer_part (10 ^ decimals % U128_LIMIT) with
        | none => .error .MathError
        | some v =>
          match checked_add_u128 v decimal_part with
          | none => .error .MathError
          | some total => .ok total

/-- Amount formatting from `format_token_amount` in src/utils.rs.  The Rust
divisor `10u128.pow(decimals as u32)` is modelled exactly, matching the Rust
behaviour for `decimals ≤ 38` (every use here has `decimals ≤ 18`). -/
def format_token_amount (amount : Nat) (decimals : Nat) : List Char :=
  if amount = 0 then ['0']
  else
    let divisor := 10 ^ decimals
    let integer_part := amount / divisor
    let remainder := amount % divisor
    if remainder = 0 then natRepr integer_part
    else
      let decimal_str := padLeftZeros decimals (natRepr remainder)
      let trimmed := trimTrailingZeros decimal_str
      if trimmed.isEmpty then natRepr integer_part
      else natRepr integer_part ++ '.' :: trimmed

/-- Digits map to their numeric value. -/
theorem digitChar_val : ∀ k < 10, (digitChar k).toNat - 48 = k := by decide

/-- Digits are ASCII digits. -/
theorem digitChar_isDigit : ∀ k < 10, (digitChar k).isDigit = true := by decide

/-- Running the digit loop on `0` returns the accumulator unchanged. -/
theorem natToChars_zero (fuel : Nat) (acc : List Char) :
    natToChars fuel 0 acc = acc := by
  cases fuel <;> simp [natToChars]

/-- Value of the digit loop output under the parsing fold. -/
theorem foldl_natToChars (fuel : Nat) :
    ∀ n acc, n ≠ 0 → n < 10 ^ fuel →
    List.foldl (fun a c => a * 10 + (c.toNat - 48)) 0 (natToChars fuel n acc) =
      List.foldl (fun a c => a * 10 + (c.toNat - 48)) n acc := by
  induction fuel with
  | zero =>
    intro n acc h1 h2
    simp only [pow_zero] at h2
    omega
  | succ fuel ih =>
    intro n acc h1 h2
    rw [natToChars, if_neg h1]
    by_cases h10 : n / 10 = 0
    · have hn10 : n < 10 := by omega
      rw [h10, natToChars_zero]
      simp only [List.foldl_cons]
      have hv : (digitChar (n % 10)).toNat - 48 = n % 10 :=
        digitChar_val _ (Nat.mod_lt _ (by norm_num))
      rw [hv]
      congr 1
      omega
    · have hlt : n / 10 < 10 ^ fuel := by
        rw [pow_succ] at h2
        omega
      rw [ih (n / 10) (digitChar (n % 10) :: acc) h10 hlt]
      simp only [List.foldl_cons]
      have hv : (digitChar (n % 10)).toNat - 48 = n % 10 :=
        digitChar_val _ (Nat.mod_lt _ (by norm_num))
      rw [hv]
      congr 1
      omega

/-- Parsing inverts printing for natural numbers. -/
theorem charsToNat_natRepr (n : Nat) : charsToNat (natRepr n) = n := by
  by_cases h : n = 0
  · subst h
    decide
  · unfold natRepr charsToNat
    rw [if_neg h]
    rw [foldl_natToChars n n [] h (Nat.lt_pow_self (by norm_num) n)]
    rfl

/-- Every character the digit loop emits is an ASCII digit. -/
theorem natToChars_digits (fuel : Nat) :
    ∀ n acc, (∀ c ∈ acc, c.isDigit = true) →
    ∀ c ∈ natToChars fuel n acc, c.isDigit = true := by
  induction fuel with
  | zero => intro n acc hacc; simpa [natToChars] using hacc
  | succ fuel ih =>
    intro n acc hacc c hc
    rw [natToChars] at hc
    by_cases h1 : n = 0
    · rw [if_pos h1] at hc
      exact hacc c hc
    · rw [if_neg h1] at hc
      refine ih (n / 10) (digitChar (n % 10) :: acc) ?_ c hc
      intro c hc
      rcases List.mem_cons.1 hc with h | h
      · subst h
        exact digitChar_isDigit _ (Nat.mod_lt _ (by norm_num))
      · exact hacc c h

/-- Every character of `natRepr n` is an ASCII digit. -/
theorem natRepr_digits (n : Nat) : ∀ c ∈ natRepr n, c.isDigit = true := by
  by_cases h : n = 0
  · subst h; decide
  · unfold natRepr
    rw [if_neg h]
    exact natToChars_digits n n [] (by simp)

/-- The digit loop never shrinks the accumulator. -/
theorem natToChars_length_ge (fuel : Nat) :
    ∀ n acc, acc.length ≤ (natToChars fuel n acc).length := by
  induction fuel with
  | zero => intro n acc; simp [natToChars]
  | succ fuel ih =>
    intro n acc
    rw [natToChars]
    by_cases h1 : n = 0
    · simp [h1]
    · rw [if_neg h1]
      calc acc.length ≤ (digitChar (n % 10) :: acc).length := by simp
        _ ≤ _ := ih (n / 10) (digitChar (n % 10) :: acc)

/-- The decimal representation is never the empty string. -/
theorem natRepr_ne_nil (n : Nat) : natRepr n ≠ [] := by
  by_cases h : n = 0
  · subst h; decide
  · unfold natRepr
    rw [if_neg h]
    intro hcon
    cases n with
    | zero => exact h rfl
    | succ m =>
      have h1 : natToChars (m + 1) (m + 1) [] =
          natToChars m ((m + 1) / 10) [digitChar ((m + 1) % 10)] := by
        simp [natToChars]
      rw [h1] at hcon
      have h2 := natToChars_length_ge m ((m + 1) / 10) [digitChar ((m + 1) % 10)]
      rw [hcon] at h2
      simp at h2

/-- Digit-count bound for the digit loop. -/
theorem natToChars_length_le (fuel : Nat) :
    ∀ n acc k, n < 10 ^ k →
    (natToChars fuel n acc).length ≤ k + acc.length := by
  induction fuel with
  | zero => intro n acc k _; simp [natToChars]
  | succ fuel ih =>
    intro n acc k hk
    rw [natToChars]
    by_cases h1 : n = 0
    · simp [h1]
    · rw [if_neg h1]
      cases k with
      | zero => simp only [pow_zero] at hk; omega
      | succ k =>
        have hlt : n / 10 < 10 ^ k := by
          rw [pow_succ] at hk
          omega
        have hrec := ih (n / 10) (digitChar (n % 10) :: acc) k hlt
        simp only [List.length_cons] at hrec
        omega

/-- Digit-count bound for `natRepr`. -/
theorem natRepr_length_le (n k : Nat) (h : n < 10 ^ k) (hn : n ≠ 0) :
    (natRepr n).length ≤ k := by
  unfold natRepr
  rw [if_neg hn]
  simpa using natToChars_length_le n n [] k h

/-- A dot-free string splits into a single part. -/
theorem splitDot_no_dot (cs : List Char) (h : '.' ∉ cs) : splitDot cs = [cs] := by
  induction cs with
  | nil => rfl
  | cons c t ih =>
    have hc : c ≠ '.' := fun hcon => h (hcon ▸ List.mem_cons_self c t)
    have ht : '.' ∉ t := fun hcon => h (List.mem_cons_of_mem c hcon)
    rw [splitDot, if_neg hc, ih ht]

/-- Splitting separates at the first dot when the prefix is dot-free. -/
theorem splitDot_append (cs ds : List Char) (h : '.' ∉ cs) :
    splitDot (cs ++ '.' :: ds) = cs :: splitDot ds := by
  induction cs with
  | nil => simp [splitDot]
  | cons c t ih =>
    have hc : c ≠ '.' := fun hcon => h (hcon ▸ List.mem_cons_self c t)
    have ht : '.' ∉ t := fun hcon => h (List.mem_cons_of_mem c hcon)
    rw [List.cons_append, splitDot, if_neg hc, ih ht]

/-- Trailing-zero trimming decomposes the string into the trimmed part
followed by zeros. -/
theorem trim_decomp (cs : List Char) :
    ∃ j, cs = trimTrailingZeros cs ++ List.replicate j '0' := by
  refine ⟨(cs.reverse.takeWhile (· == '0')).length, ?_⟩
  have h1 : cs.reverse.takeWhile (· == '0') ++ cs.reverse.dropWhile (· == '0') =
      cs.reverse := List.takeWhile_append_dropWhile (· == '0') cs.reverse
  have h2 : cs.reverse.takeWhile (· == '0') =
      List.replicate (cs.reverse.takeWhile (· == '0')).length '0' := by
    refine List.eq_replicate_of_mem ?_
    intro b hb
    have := List.mem_takeWhile_imp hb
    exact eq_of_beq this
  calc cs = cs.reverse.reverse := (List.reverse_reverse cs).symm
    _ = (cs.reverse.takeWhile (· == '0') ++ cs.reverse.dropWhile (· == '0')).reverse := by
        rw [h1]
    _ = (cs.reverse.dropWhile (· == '0')).reverse ++
          (cs.reverse.takeWhile (· == '0')).reverse := by
        rw [List.reverse_append]
    _ = trimTrailingZeros cs ++ List.replicate (cs.reverse.takeWhile (· == '0')).length '0' := by
        rw [trimTrailingZeros]
        congr 1
        rw [h2, List.reverse_replicate, List.length_replicate]

/-- Trimming never lengthens a string. -/
theorem trim_length_le (cs : List Char) :
    (trimTrailingZeros cs).length ≤ cs.length := by
  obtain ⟨j, hj⟩ := trim_decomp cs
  conv_rhs => rw [hj]
  simp

/-- Characters of the trimmed string come from the original string. -/
theorem trim_subset (cs : List Char) (c : Char) (h : c ∈ trimTrailingZeros cs) :
    c ∈ cs := by
  obtain ⟨j, hj⟩ := trim_decomp cs
  rw [hj]
  exact List.mem_append_left _ h

/-- Leading zeros do not change the parsed value. -/
theorem charsToNat_replicate_zero (j : Nat) (cs : List Char) :
    charsToNat (List.replicate j '0' ++ cs) = charsToNat cs := by
  induction j with
  | zero => rfl
  | succ j ih =>
    rw [List.replicate_succ, List.cons_append]
    unfold charsToNat at ih ⊢
    simpa using ih

/-- A value parsed from all zeros is zero. -/
theorem charsToNat_replicate_zero_nil (j : Nat) :
    charsToNat (List.replicate j '0') = 0 := by
  have := charsToNat_replicate_zero j []
  simpa using this

/-- Stripping the sign is the identity on nonempty digit strings. -/
theorem stripPlus_digits (cs : List Char) (h : ∀ c ∈ cs, c.isDigit = true) :
    stripPlus cs = cs := by
  cases cs with
  | nil => rfl
  | cons c t =>
    have hc : c.isDigit = true := h c (List.mem_cons_self c t)
    have : c ≠ '+' := by
      intro hcon
      rw [hcon] at hc
      simp [Char.isDigit] at hc
    rw [stripPlus, if_neg this]

/-- `parse_u128` succeeds on a `natRepr` output below the `u128` bound. -/
theorem parse_u128_natRepr (n : Nat) (h : n < U128_LIMIT) :
    parse_u128 (natRepr n) = some n := by
  unfold parse_u128 parseNum
  rw [stripPlus_digits _ (natRepr_digits n)]
  rw [if_neg (by simpa [List.isEmpty_iff] using natRepr_ne_nil n)]
  rw [if_pos (by rw [List.all_eq_true]; intro c hc; exact natRepr_digits n c hc)]
  rw [charsToNat_natRepr]
  simp [h]

/-- Evaluation of `parse_token_amount` on a dot-free string. -/
theorem parse_token_amount_single (A : List Char) (d I : Nat)
    (hnodot : '.' ∉ A) (hp : parse_u128 A = some I)
    (hmul : I * (10 ^ d % U128_LIMIT) < U128_LIMIT)
    (hadd : I * (10 ^ d % U128_LIMIT) + 0 < U128_LIMIT) :
    parse_token_amount A d = .ok (I * (10 ^ d % U128_LIMIT) + 0) := by
  unfold parse_token_amount
  rw [splitDot_no_dot A hnodot]
  simp only [List.isEmpty_cons, List.length_cons, List.length_nil, List.headD_cons,
    checked_mul_u128, checked_add_u128]
  rw [if_neg (by norm_num)]
  rw [hp]
  dsimp only
  rw [if_neg (by norm_num : ¬ 0 + 1 = 2)]
  dsimp only
  rw [if_pos hmul]
  dsimp only
  rw [if_pos hadd]

/-- Evaluation of `parse_token_amount` on a string with one dot. -/
theorem parse_token_amount_pair (A B : List Char) (d I F : Nat)
    (hnodotA : '.' ∉ A) (hnodotB : '.' ∉ B)
    (hpA : parse_u128 A = some I)
    (hlenB : B.length ≤ d)
    (hpB : parse_u128 (padRightZeros d B) = some F)
    (hmul : I * (10 ^ d % U128_LIMIT) < U128_LIMIT)
    (hadd : I * (10 ^ d % U128_LIMIT) + F < U128_LIMIT) :
    parse_token_amount (A ++ '.' :: B) d = .ok (I * (10 ^ d % U128_LIMIT) + F) := by
  unfold parse_token_amount
  rw [splitDot_append A B hnodotA, splitDot_no_dot B hnodotB]
  simp only [List.isEmpty_cons, List.length_cons, List.length_nil, List.headD_cons,
    List.getD_cons_succ, List.getD_cons_zero, if_true,
    checked_mul_u128, checked_add_u128]
  rw [if_neg (by norm_num)]
  rw [hpA]
  dsimp only
  rw [if_neg (by omega : ¬ d < B.length)]
  rw [hpB]
  dsimp only
  rw [if_pos hmul]
  dsimp only
  rw [if_pos hadd]

/-- Counterexample to C2 as stated: `2^128` is representable in the 256-bit
`Amount` type, but the round trip at `decimals = 0` fails with `ParseError`
because `parse_token_amount` parses the integer part as a `u128`. -/
theorem parse_format_roundtrip_counterexample :
    parse_token_amount (format_token_amount (2 ^ 128) 0) 0 = .error .ParseError ∧
    parse_token_amount (format_token_amount (2 ^ 128) 0) 0 ≠ .ok (2 ^ 128) := by
  refine ⟨by decide, by decide⟩

/-- C2 (amended): the parse/format round trip
`parse_token_amount (format_token_amount x d) d = Ok x` holds for every
`x` below `2^128` (the parser's `u128` arithmetic width) and `d ≤ 18`;
the counterexample shows it fails at the representable 256-bit amount
`x = 2^128` with `d = 0`. -/
theorem parse_format_roundtrip (x d : Nat) (hx : x < U128_LIMIT) (hd : d ≤ 18) :
    parse_token_amount (format_token_amount x d) d = .ok x := by
  have hP128 : 10 ^ d < U128_LIMIT := by
    calc 10 ^ d ≤ 10 ^ 18 := Nat.pow_le_pow_right (by norm_num) hd
      _ < U128_LIMIT := by norm_num [U128_LIMIT]
  have hmod : 10 ^ d % U128_LIMIT = 10 ^ d := Nat.mod_eq_of_lt hP128
  by_cases hx0 : x = 0
  · subst hx0
    have hfmt : format_token_amount 0 d = ['0'] := by simp [format_token_amount]
    rw [hfmt]
    have h1 : parse_u128 ['0'] = some 0 := by decide
    have h2 := parse_token_amount_single ['0'] d 0 (by decide) h1
      (by simpa using Nat.pos_of_ne_zero (by norm_num [U128_LIMIT]))
      (by simpa using Nat.pos_of_ne_zero (by norm_num [U128_LIMIT]))
    simpa using h2
  · have hdm := Nat.div_add_mod x (10 ^ d)
    have hI128 : x / 10 ^ d < U128_LIMIT := lt_of_le_of_lt (Nat.div_le_self _ _) hx
    have hnodotI : '.' ∉ natRepr (x / 10 ^ d) := by
      intro hcon
      exact absurd (natRepr_digits _ _ hcon) (by decide)
    have hpI : parse_u128 (natRepr (x / 10 ^ d)) = some (x / 10 ^ d) :=
      parse_u128_natRepr _ hI128
    by_cases hR : x % 10 ^ d = 0
    · have hmul : x / 10 ^ d * 10 ^ d = x := Nat.div_mul_cancel (Nat.dvd_of_mod_eq_zero hR)
      have hfmt : format_token_amount x d = natRepr (x / 10 ^ d) := by
        simp [format_token_amount, hx0, hR]
      rw [hfmt]
      have h2 := parse_token_amount_single (natRepr (x / 10 ^ d)) d (x / 10 ^ d)
        hnodotI hpI (by rw [hmod, hmul]; exact hx) (by rw [hmod, hmul]; simpa using hx)
      rw [h2, hmod, hmul]
      norm_num
    · have hRlt : x % 10 ^ d < 10 ^ d := Nat.mod_lt _ (pow_pos (by norm_num) d)
      have hd1 : 1 ≤ d := by
        rcases Nat.eq_zero_or_pos d with h0 | h1
        · subst h0
          simp [Nat.mod_one] at hR
        · exact h1
      have hRlen : (natRepr (x % 10 ^ d)).length ≤ d := natRepr_length_le _ _ hRlt hR
      have hdslen : (padLeftZeros d (natRepr (x % 10 ^ d))).length = d := by
        simp only [padLeftZeros, List.length_append, List.length_replicate]
        omega
      have hdsdigits : ∀ c ∈ padLeftZeros d (natRepr (x % 10 ^ d)), c.isDigit = true := by
        intro c hc
        rcases List.mem_append.1 hc with h | h
        · rw [List.eq_of_mem_replicate h]; decide
        · exact natRepr_digits _ c h
      have hdsval : charsToNat (padLeftZeros d (natRepr (x % 10 ^ d))) = x % 10 ^ d := by
        unfold padLeftZeros
        rw [charsToNat_replicate_zero]
        exact charsToNat_natRepr _
      have hdsne : padLeftZeros d (natRepr (x % 10 ^ d)) ≠ [] := by
        intro hcon
        have := congrArg List.length hcon
        rw [hdslen] at this
        simp at this
        omega
      obtain ⟨j, hj⟩ := trim_decomp (padLeftZeros d (natRepr (x % 10 ^ d)))
      have hTne : trimTrailingZeros (padLeftZeros d (natRepr (x % 10 ^ d))) ≠ [] := by
        intro hcon
        rw [hcon, List.nil_append] at hj
        have hzero : charsToNat (padLeftZeros d (natRepr (x % 10 ^ d))) = 0 := by
          rw [hj]
          exact charsToNat_replicate_zero_nil j
        rw [hdsval] at hzero
        exact hR hzero
      have hTlen : (trimTrailingZeros (padLeftZeros d (natRepr (x % 10 ^ d)))).length ≤ d :=
        le_trans (trim_length_le _) (le_of_eq hdslen)
      have hjlen : (trimTrailingZeros (padLeftZeros d (natRepr (x % 10 ^ d)))).length + j = d := by
        have hlen := congrArg List.length hj
        rw [hdslen] at hlen
        simp only [List.length_append, List.length_replicate] at hlen
        omega
      have hpad : padRightZeros d (trimTrailingZeros (padLeftZeros d (natRepr (x % 10 ^ d)))) =
          padLeftZeros d (natRepr (x % 10 ^ d)) := by
        unfold padRightZeros
        have hji : d - (trimTrailingZeros (padLeftZeros d (natRepr (x % 10 ^ d)))).length
            = j := by omega
        rw [hji]
        exact hj.symm
      have hTdigits : ∀ c ∈ trimTrailingZeros (padLeftZeros d (natRepr (x % 10 ^ d))),
          c.isDigit = true := fun c hc => hdsdigits c (trim_subset _ c hc)
      have hnodotT : '.' ∉ trimTrailingZeros (padLeftZeros d (natRepr (x % 10 ^ d))) :=
        fun hcon => absurd (hTdigits '.' hcon) (by decide)
      have hpB : parse_u128 (padRightZeros d
          (trimTrailingZeros (padLeftZeros d (natRepr (x % 10 ^ d))))) =
          some (x % 10 ^ d) := by
        rw [hpad]
        unfold parse_u128 parseNum
        rw [stripPlus_digits _ hdsdigits]
        rw [if_neg (by simpa [List.isEmpty_iff] using hdsne)]
        rw [if_pos (by rw [List.all_eq_true]; exact hdsdigits)]
        rw [hdsval]
        dsimp only
        rw [if_pos (lt_trans hRlt hP128)]
      have hTempty : (trimTrailingZeros (padLeftZeros d (natRepr (x % 10 ^ d)))).isEmpty
          = false := by
        rcases hT : (trimTrailingZeros (padLeftZeros d (natRepr (x % 10 ^ d)))).isEmpty
        · rfl
        · exact absurd (List.isEmpty_iff.1 hT) hTne
      have hfmt : format_token_amount x d =
          natRepr (x / 10 ^ d) ++ '.' ::
            trimTrailingZeros (padLeftZeros d (natRepr (x % 10 ^ d))) := by
        rw [format_token_amount, if_neg hx0]
        dsimp only
        rw [if_neg hR]
        rw [hTempty]
        simp
      rw [hfmt]
      have hmulb : x / 10 ^ d * (10 ^ d % U128_LIMIT) < U128_LIMIT := by
        rw [hmod, Nat.mul_comm (x / 10 ^ d) (10 ^ d)]
        omega
      have haddb : x / 10 ^ d * (10 ^ d % U128_LIMIT) + x % 10 ^ d < U128_LIMIT := by
        rw [hmod, Nat.mul_comm (x / 10 ^ d) (10 ^ d)]
        omega
      have h2 := parse_token_amount_pair (natRepr (x / 10 ^ d))
        (trimTrailingZeros (padLeftZeros d (natRepr (x % 10 ^ d)))) d
        (x / 10 ^ d) (x % 10 ^ d) hnodotI hnodotT hpI hTlen hpB hmulb haddb
      rw [h2, hmod]
      congr 1
      rw [Nat.mul_comm (x / 10 ^ d) (10 ^ d)]
      omega

/-- Witness for the amended C2 theorem at a concrete input, matching the
spec's own example pair. -/
theorem parse_format_roundtrip_witness :
    parse_token_amount (format_token_amount 1234560000000000000 18) 18 =
      .ok 1234560000000000000 :=
  parse_format_roundtrip 1234560000000000000 18 (by norm_num [U128_LIMIT])
    (by norm_num)

/-- Counterexample to C10 as stated: at `decimals = 39` the Rust
`10u128.pow(39)` multiplier wraps modulo `2^128` (release builds), so the
input string `"1"`, whose scaled result `10^39` exceeds `u128::MAX`, is
accepted with `Ok` instead of being rejected with an error. -/
theorem parse_token_amount_u128_arith_counterexample :
    parse_token_amount ['1'] 39 = .ok (10 ^ 39 % U128_LIMIT) ∧
    U128_LIMIT ≤ 1 * 10 ^ 39 + 0 := by
  refine ⟨by decide, by decide⟩

/-- C10 (amended): `parse_token_amount` does its arithmetic in `u128`, so
no value it ever returns reaches `2^128` (for every input string and every
`decimals`); and for `decimals ≤ 38` — where the `10u128.pow` multiplier
is exact; every use in this repository has `decimals ≤ 18` — any input
whose scaled result would exceed `2^128 - 1` is rejected: with `ParseError`
when the integer or (padded) fractional part does not fit `u128`, and with
`MathError` when the final multiply-add overflows.  For `decimals ≥ 39`
the multiplier itself overflows `u128` and over-scaled inputs can be
accepted (see the counterexample). -/
theorem parse_token_amount_u128_arith (s : List Char) (d : Nat) :
    (∀ v, parse_token_amount s d = .ok v → v < U128_LIMIT) ∧
    (d ≤ 38 →
      (∀ A V, splitDot s = [A] → parseNum A = some V → U128_LIMIT ≤ V →
        parse_token_amount s d = .error .ParseError) ∧
      (∀ A B V, splitDot s = [A, B] → parseNum A = some V → U128_LIMIT ≤ V →
        parse_token_amount s d = .error .ParseError) ∧
      (∀ A B I V, splitDot s = [A, B] → parse_u128 A = some I → B.length ≤ d →
        parseNum (padRightZeros d B) = some V → U128_LIMIT ≤ V →
        parse_token_amount s d = .error .ParseError) ∧
      (∀ A I, splitDot s = [A] → parse_u128 A = some I →
        U128_LIMIT ≤ I * 10 ^ d →
        parse_token_amount s d = .error .MathError) ∧
      (∀ A B I F, splitDot s = [A, B] → parse_u128 A = some I → B.length ≤ d →
        parse_u128 (padRightZeros d B) = some F →
        U128_LIMIT ≤ I * 10 ^ d + F →
        parse_token_amount s d = .error .MathError)) := by
  refine ⟨?_, ?_⟩
  · intro v h
    unfold parse_token_amount at h
    dsimp only at h
    split at h
    · simp at h
    · split at h
      · simp at h
      · split at h
        · simp at h
        · rename_i I hI dp hdp
          split at h
          · simp at h
          · rename_i v1 hv1
            split at h
            · simp at h
            · rename_i total htotal
              rw [checked_add_u128] at htotal
              split at htotal <;> simp_all
  · intro hd
    have hP128 : 10 ^ d < U128_LIMIT := by
      calc 10 ^ d ≤ 10 ^ 38 := Nat.pow_le_pow_right (by norm_num) hd
        _ < U128_LIMIT := by norm_num [U128_LIMIT]
    have hmod : 10 ^ d % U128_LIMIT = 10 ^ d := Nat.mod_eq_of_lt hP128
    refine ⟨?_, ?_, ?_, ?_, ?_⟩
    · intro A V hsplit hA hV
      have hpu : parse_u128 A = none := by
        unfold parse_u128
        rw [hA]
        dsimp only
        rw [if_neg (by omega)]
      unfold parse_token_amount
      rw [hsplit]
      dsimp only
      rw [if_neg (by simp)]
      simp only [List.headD_cons]
      rw [hpu]
    · intro A B V hsplit hA hV
      have hpu : parse_u128 A = none := by
        unfold parse_u128
        rw [hA]
        dsimp only
        rw [if_neg (by omega)]
      unfold parse_token_amount
      rw [hsplit]
      dsimp only
      rw [if_neg (by simp)]
      simp only [List.headD_cons]
      rw [hpu]
    · intro A B I V hsplit hA hB hV hVover
      have hpu : parse_u128 (padRightZeros d B) = none := by
        unfold parse_u128
        rw [hV]
        dsimp only
        rw [if_neg (by omega)]
      unfold parse_token_amount
      rw [hsplit]
      dsimp only
      rw [if_neg (by simp)]
      simp only [List.headD_cons, List.getD_cons_succ, List.getD_cons_zero,
        List.length_cons, List.length_nil]
      rw [hA]
      dsimp only
      rw [if_pos trivial]
      rw [if_neg (by simpa using hB), hpu]
    · intro A I hsplit hA hover
      unfold parse_token_amount
      rw [hsplit]
      dsimp only
      rw [if_neg (by simp)]
      simp only [List.headD_cons, List.getD_cons_succ, List.getD_cons_zero,
        List.length_cons, List.length_nil]
      rw [hA]
      dsimp only
      rw [if_neg (by norm_num : ¬ 0 + 1 = 2)]
      dsimp only
      rw [checked_mul_u128, hmod, if_neg (by omega)]
    · intro A B I F hsplit hA hB hF hover
      unfold parse_token_amount
      rw [hsplit]
      dsimp only
      rw [if_neg (by simp)]
      simp only [List.headD_cons, List.getD_cons_succ, List.getD_cons_zero,
        List.length_cons, List.length_nil]
      rw [hA]
      dsimp only
      rw [if_pos trivial]
      rw [if_neg (by simpa using hB), hF]
      dsimp only
      rw [checked_mul_u128, hmod]
      by_cases hm : I * 10 ^ d < U128_LIMIT
      · rw [if_pos hm]
        dsimp only
        rw [checked_add_u128, if_neg (by omega)]
      · rw [if_neg hm]

/-- Witness for the C10 theorem: thirty-eight nines scaled by `10^38`
overflow `u128` and are rejected with `MathError`. -/
theorem parse_token_amount_u128_arith_witness :
    parse_token_amount (List.replicate 38 '9') 38 = .error .MathError := by
  have h := ((parse_token_amount_u128_arith (List.replicate 38 '9') 38).2
    (by norm_num)).2.2.2.1
  exact h (List.replicate 38 '9') (10 ^ 38 - 1) (by decide) (by decide) (by decide)

/-- Ethereum addresses (20-byte opaque identifiers) are modelled as `Nat`
with decidable equality. -/
abbrev Address : Type := Nat

/-- Pool descriptor from src/types.rs. -/
structure PoolInfo where
  address : Address
  token0 : Address
  token1 : Address
  reserve0 : Nat
  reserve1 : Nat
  fee_bps : Nat
  dex_name : String
  last_updated : Nat
  deriving DecidableEq, Repr

/-- `PoolInfo::get_other_token` from src/types.rs. -/
def PoolInfo.get_other_token (p : PoolInfo) (token : Address) : Option Address :=
  if token = p.token0 then some p.token1
  else if token = p.token1 then some p.token0
  else none

/-- `PoolInfo::get_reserves` from src/types.rs. -/
def PoolInfo.get_reserves (p : PoolInfo) (token_in : Address) : Option (Nat × Nat) :=
  if token_in = p.token0 then some (p.reserve0, p.reserve1)
  else if token_in = p.token1 then some (p.reserve1, p.reserve0)
  else none

/-- `calculate_fee` from src/utils.rs: `amount * fee_bps / 10000`,
saturating to 0 on overflow. -/
def calculate_fee (amount fee_bps : Nat) : Nat :=
  match checked_mul amount fee_bps with
  | none => 0
  | some v =>
    match checked_div v 10000 with
    | none => 0
    | some q => q

/-- Quote result from src/quote.rs. -/
structure QuoteResult where
  pool : PoolInfo
  token_in : Address
  token_out : Address
  amount_in : Nat
  amount_out : Nat
  fee : Nat
  price_impact_bps : Nat
  gas_estimate : Nat
  deriving DecidableEq, Repr

/-- A single hop of a route, from src/types.rs. -/
structure RouteHop where
  pool : Address
  token_in : Address
  token_out : Address
  dex_name : String
  amount_in : Nat
  amount_out : Nat
  fee : Nat
  gas_estimate : Nat
  deriving DecidableEq, Repr

/-- Complete route quote from src/types.rs; the floating-point `score` and
the display `description` are elided (no claim concerns them). -/
structure RouteQuote where
  token_in : Address
  token_out : Address
  amount_in : Nat
  amount_out : Nat
  hops : List RouteHop
  total_fee : Nat
  gas_estimate : Nat
  price_impact_bps : Nat
  deriving DecidableEq, Repr

/-- `QuoteEngine::calculate_pool_output` from src/quote.rs. -/
def calculate_pool_output (pool : PoolInfo) (token_in : Address) (amount_in : Nat) :
    Except AggregatorError QuoteResult :=
  match pool.get_reserves token_in with
  | none => .error .InvalidTokenAddress
  | some (reserve_in, reserve_out) =>
    match pool.get_other_token token_in with
    | none => .error .InvalidTokenAddress
    | some token_out =>
      match calculate_uniswap_v2_output amount_in reserve_in reserve_out pool.fee_bps with
      | .error e => .error e
      | .ok amount_out =>
        .ok { pool := pool
              token_in := token_in
              token_out := token_out
              amount_in := amount_in
              amount_out := amount_out
              fee := calculate_fee amount_in pool.fee_bps
              price_impact_bps :=
                calculate_price_impact amount_in reserve_in amount_out reserve_out
              gas_estimate := 100000 }

/-- Loop body of `QuoteEngine::calculate_route_output`: one hop per pool,
threading each hop's output into the next hop's input. -/
def route_output_go : List PoolInfo → List Address → Nat →
    Except AggregatorError (List RouteHop)
  | [], _, _ => .ok []
  | pool :: pools, t0 :: t1 :: ts, amt =>
    match calculate_pool_output pool t0 amt with
    | .error e => .error e
    | .ok quote =>
      match route_output_go pools (t1 :: ts) quote.amount_out with
      | .error e => .error e
      | .ok hops =>
        .ok ({ pool := pool.address
               token_in := t0
               token_out := t1
               dex_name := pool.dex_name
               amount_in := amt
               amount_out := quote.amount_out
               fee := quote.fee
               gas_estimate := quote.gas_estimate } :: hops)
  | _ :: _, _, _ => .error .InvalidAmount

/-- `QuoteEngine::calculate_route_output` from src/quote.rs.  The Rust
index loop is modelled by the structural recursion `route_output_go`; the
final catch-all of `route_output_go` is unreachable under the length
check. -/
def calculate_route_output (pools : List PoolInfo) (tokens : List Address)
    (amount_in : Nat) : Except AggregatorError (List RouteHop) :=
  if pools.isEmpty ∨ tokens.length ≠ pools.length + 1 then .error .InvalidAmount
  else route_output_go pools tokens amount_in

/-- `QuoteEngine::find_best_direct_pool` from src/quote.rs. -/
def find_best_direct_pool (pools : List PoolInfo) (token_in token_out : Address)
    (amount_in : Nat) : Except AggregatorError QuoteResult :=
  let matching := pools.filter (fun p =>
    (p.token0 = token_in ∧ p.token1 = token_out) ∨
    (p.token0 = token_out ∧ p.token1 = token_in))
  if matching.isEmpty then .error .NoRouteFound
  else
    let best := matching.foldl (fun best p =>
      match calculate_pool_output p token_in amount_in with
      | .ok quote =>
        match best with
        | some current => if quote.amount_out > current.amount_out then some quote
                          else some current
        | none => some quote
      | .error _ => best) none
    match best with
    | some q => .ok q
    | none => .error .NoRouteFound

/-- Optimization strategies from src/types.rs. -/
inductive OptimizationStrategy where
  | Price
  | Gas
  | Slippage
  | Balanced
  deriving DecidableEq, Repr

/-- Router state from src/router.rs. -/
structure Router where
  optimization : OptimizationStrategy
  max_hops : Nat
  deriving DecidableEq, Repr

/-- `Router::new` from src/router.rs: the hop count is capped at 4. -/
def Router.new (optimization : OptimizationStrategy) (max_hops : Nat) : Router :=
  { optimization := optimization, max_hops := min max_hops 4 }

/-- A candidate route from src/router.rs. -/
structure Route where
  tokens : List Address
  pools : List Address
  deriving DecidableEq, Repr

/-- `Router::build_adjacency_map` from src/router.rs, as the lookup
function of the hash map it builds: for each token, the list of
`(pool_address, other_token)` edges in pool order (pools with a zero
reserve are skipped; each pool contributes its `token0` entry before its
`token1` entry, exactly as the Rust pushes do). -/
def adjacency_edges (t : Address) (p : PoolInfo) : List (Address × Address) :=
  if p.reserve0 = 0 ∨ p.reserve1 = 0 then []
  else (if p.token0 = t then [(p.address, p.token1)] else []) ++
       (if p.token1 = t then [(p.address, p.token0)] else [])

/-- Fold form of the same map construction. -/
def build_adjacency_map (pools : List PoolInfo) (t : Address) :
    List (Address × Address) :=
  pools.foldl (fun acc p => acc ++ adjacency_edges t p) []

/-- One BFS round of `Router::bfs_routes`: extend the popped item by every
admissible edge, recording completed routes and queueing the rest, in the
Rust iteration order. -/
def bfs_extend (adj : Address → List (Address × Address)) (dst : Address)
    (path_tokens : List Address) (path_pools : List Address) (current : Address)
    (routes : List Route) (queue : List (Address × List Address × List Address)) :
    List Route × List (Address × List Address × List Address) :=
  (adj current).foldl (fun (acc : List Route × List (Address × List Address × List Address)) edge =>
    if edge.2 ∈ path_tokens then acc
    else
      let new_path_tokens := path_tokens ++ [edge.2]
      let new_path_pools := path_pools ++ [edge.1]
      if edge.2 = dst then
        (acc.1 ++ [{ tokens := new_path_tokens, pools := new_path_pools }], acc.2)
      else
        (acc.1, acc.2 ++ [(edge.2, new_path_tokens, new_path_pools)]))
    (routes, queue)

/-- Queue loop of `Router::bfs_routes` from src/router.rs.  The Rust
`while let` loop terminates because paths grow and repeat no token; the
recursion is made structural on a fuel argument, and every theorem below
holds for every fuel, in particular any fuel large enough to drain the
queue. -/
def bfs_loop (adj : Address → List (Address × Address)) (dst : Address)
    (max_depth : Nat) :
    Nat → List (Address × List Address × List Address) → List Route → List Route
  | 0, _, routes => routes
  | _ + 1, [], routes => routes
  | fuel + 1, (current, path_tokens, path_pools) :: queue, routes =>
    if max_depth ≤ path_pools.length then bfs_loop adj dst max_depth fuel queue routes
    else
      let step := bfs_extend adj dst path_tokens path_pools current routes queue
      bfs_loop adj dst max_depth fuel step.2 step.1

/-- `Router::bfs_routes` from src/router.rs (fuelled; see `bfs_loop`). -/
def bfs_routes (fuel : Nat) (adj : Address → List (Address × Address))
    (start dst : Address) (max_depth : Nat) : List Route :=
  bfs_loop adj dst max_depth fuel [(start, [start], [])] []

/-- `Router::deduplicate_routes` from src/router.rs: first occurrence of
each pool-address sequence wins (the Rust code keys the `HashSet` on the
`Debug` rendering of the pool list, which is injective in the list). -/
def deduplicate_routes (routes : List Route) : List Route :=
  (routes.foldl (fun (acc : List (List Address) × List Route) route =>
    if route.pools ∈ acc.1 then acc
    else (route.pools :: acc.1, acc.2 ++ [route])) ([], [])).2

/-- `Router::find_all_routes` from src/router.rs: direct one-hop routes,
then BFS for multi-hop when `max_hops > 1`, then deduplication.  The Rust
function returns `Result` but never errs, so the model returns the list. -/
def Router.find_all_routes (r : Router) (fuel : Nat) (pools : List PoolInfo)
    (token_in token_out : Address) : List Route :=
  let adjacency := build_adjacency_map pools
  let direct := (adjacency token_in).foldl (fun acc edge =>
    acc ++ (if edge.2 = token_out then
      [{ tokens := [token_in, token_out], pools := [edge.1] }] else [])) []
  let multi := if 1 < r.max_hops then
      bfs_routes fuel adjacency token_in token_out r.max_hops
    else []
  deduplicate_routes (direct ++ multi)

/-- `Router::estimate_route_price_impact` from src/router.rs. -/
def Router.estimate_route_price_impact (_r : Router) (hops : List RouteHop) : Nat :=
  hops.length * 10

/-- `Router::calculate_route_quote` from src/router.rs.  On the success
path `route.tokens` is nonempty, so the Rust `route.tokens[0]` and
`route.tokens.last().unwrap()` are modelled with the `headD`/`getLastD`
defaults, which are never hit.  The `U256` fee/gas sums panic on overflow
in Rust and are modelled as exact `Nat` sums; `score` and `description`
are elided. -/
def Router.calculate_route_quote (r : Router) (route : Route)
    (pools : List PoolInfo) (amount_in : Nat) :
    Except AggregatorError RouteQuote :=
  let route_pools := route.pools.filterMap (fun addr =>
    pools.find? (fun p => p.address = addr))
  if route_pools.length ≠ route.pools.length then .error .PoolNotFound
  else
    match calculate_route_output route_pools route.tokens amount_in with
    | .error e => .error e
    | .ok hops =>
      .ok { token_in := route.tokens.headD 0
            token_out := route.tokens.getLastD 0
            amount_in := amount_in
            amount_out := (hops.getLast?.map (·.amount_out)).getD 0
            hops := hops
            total_fee := hops.foldl (fun acc h => acc + h.fee) 0
            gas_estimate := hops.foldl (fun acc h => acc + h.gas_estimate) 0
            price_impact_bps := r.estimate_route_price_impact hops }

/-- Market context from src/types.rs; the floating-point ETH price feeds
only the elided score. -/
structure MarketContext where
  gas_price_gwei : Nat
  block_number : Nat
  deriving DecidableEq, Repr

/-- The configuration fields of src/config.rs that the aggregator facade
reads on the quoting path. -/
structure Config where
  max_hops : Nat
  gas_price_gwei : Nat
  deriving DecidableEq, Repr

/-- Modelled from the spec: `Router::find_top_routes` is called from
`Aggregator::get_top_quotes` in src/lib.rs but its definition is absent
from src/router.rs (only `find_best_route` appears there).  Per spec §4.5
the router enumerates all routes, quotes each, drops failing routes, and
returns the top-k by score, raising `NoRouteFound` when no route quotes
successfully.  The floating-point score ranking is elided: quotes are kept
in enumeration order and truncated to `limit`. -/
def Router.find_top_routes (r : Router) (fuel : Nat) (pools : List PoolInfo)
    (token_in token_out : Address) (amount_in : Nat) (_context : MarketContext)
    (limit : Nat) : Except AggregatorError (List RouteQuote) :=
  let routes := r.find_all_routes fuel pools token_in token_out
  let quotes := routes.filterMap (fun route =>
    (r.calculate_route_quote route pools amount_in).toOption)
  if quotes.isEmpty then .error .NoRouteFound
  else .ok (quotes.take limit)

/-- Aggregator facade state from src/lib.rs: the pool manager's cache is
modelled as the snapshot list `get_all_pools` returns. -/
structure Aggregator where
  cache : List PoolInfo
  config : Config

/-- `Aggregator::get_top_quotes` from src/lib.rs (the ETH price placeholder
feeds only the elided score). -/
def Aggregator.get_top_quotes (agg : Aggregator) (fuel : Nat)
    (token_in token_out : Address) (amount_in : Nat)
    (optimization : OptimizationStrategy) (limit : Nat) :
    Except AggregatorError (List RouteQuote) :=
  let pools := agg.cache
  if pools.isEmpty then .error .PoolNotFound
  else
    let router := Router.new optimization agg.config.max_hops
    let context : MarketContext :=
      { gas_price_gwei := agg.config.gas_price_gwei, block_number := 0 }
    router.find_top_routes fuel pools token_in token_out amount_in context limit

instance : Inhabited RouteQuote :=
  ⟨{ token_in := 0, token_out := 0, amount_in := 0, amount_out := 0,
     hops := [], total_fee := 0, gas_estimate := 0, price_impact_bps := 0 }⟩

/-- `Aggregator::get_best_quote` from src/lib.rs: the first of the top
quotes.  The Rust `unwrap` of the first element is modelled with `headD`;
`find_top_routes` never returns an empty `Ok` list. -/
def Aggregator.get_best_quote (agg : Aggregator) (fuel : Nat)
    (token_in token_out : Address) (amount_in : Nat)
    (optimization : OptimizationStrategy) :
    Except AggregatorError RouteQuote :=
  match agg.get_top_quotes fuel token_in token_out amount_in optimization 1 with
  | .error e => .error e
  | .ok quotes => .ok (quotes.headD default)

/-- Membership in an append-accumulating fold. -/
theorem mem_foldl_append {α β : Type} (g : β → List α) :
    ∀ (l : List β) (acc : List α) (x : α),
    (x ∈ l.foldl (fun acc p => acc ++ g p) acc) ↔
      (x ∈ acc ∨ ∃ p ∈ l, x ∈ g p) := by
  intro l
  induction l with
  | nil => intro acc x; simp
  | cons hd tl ih =>
    intro acc x
    rw [List.foldl_cons, ih]
    simp only [List.mem_append, List.mem_cons]
    constructor
    · rintro ((h | h) | ⟨p, hp, hx⟩)
      · exact Or.inl h
      · exact Or.inr ⟨hd, Or.inl rfl, h⟩
      · exact Or.inr ⟨p, Or.inr hp, hx⟩
    · rintro (h | ⟨p, (rfl | hp), hx⟩)
      · exact Or.inl (Or.inl h)
      · exact Or.inl (Or.inr hx)
      · exact Or.inr ⟨p, hp, hx⟩

/-- A fold preserves any invariant its step preserves. -/
theorem foldl_preserves {α β : Type} (f : β → α → β) (P : β → Prop)
    (hstep : ∀ b a, P b → P (f b a)) :
    ∀ (l : List α) (b : β), P b → P (l.foldl f b) := by
  intro l
  induction l with
  | nil => intro b hb; exact hb
  | cons hd tl ih => intro b hb; exact ih (f b hd) (hstep b hd hb)

/-- Adjacency edges never point back at the key token when every pool has
two distinct tokens. -/
theorem adjacency_ne (pools : List PoolInfo) (t : Address)
    (hpools : ∀ p ∈ pools, p.token0 ≠ p.token1) :
    ∀ e ∈ build_adjacency_map pools t, e.2 ≠ t := by
  intro e he
  rw [build_adjacency_map, mem_foldl_append] at he
  rcases he with h | ⟨p, hp, he⟩
  · simp at h
  · unfold adjacency_edges at he
    split at he
    · simp at he
    · rcases List.mem_append.1 he with h | h
      · split at h
        · rename_i h0
          simp only [List.mem_singleton] at h
          subst h
          intro hcon
          simp only at hcon
          exact hpools p hp (h0.trans hcon.symm)
        · simp at h
      · split at h
        · rename_i h1
          simp only [List.mem_singleton] at h
          subst h
          intro hcon
          simp only at hcon
          exact hpools p hp (hcon.trans h1.symm)
        · simp at h

/-- Invariants carried by one BFS extension step: all recorded routes keep
duplicate-free token lists of at most `max_depth` pools and all queued
items keep duplicate-free token lists. -/
theorem bfs_extend_inv (adj : Address → List (Address × Address)) (dst : Address)
    (max_depth : Nat) (path_tokens : List Address) (path_pools : List Address)
    (current : Address) (routes : List Route)
    (queue : List (Address × List Address × List Address))
    (hpt : path_tokens.Nodup) (hdepth : path_pools.length < max_depth)
    (hroutes : ∀ r ∈ routes, r.tokens.Nodup ∧ r.pools.length ≤ max_depth)
    (hqueue : ∀ it ∈ queue, it.2.1.Nodup) :
    (∀ r ∈ (bfs_extend adj dst path_tokens path_pools current routes queue).1,
      r.tokens.Nodup ∧ r.pools.length ≤ max_depth) ∧
    (∀ it ∈ (bfs_extend adj dst path_tokens path_pools current routes queue).2,
      it.2.1.Nodup) := by
  unfold bfs_extend
  have := foldl_preserves
    (fun (acc : List Route × List (Address × List Address × List Address)) edge =>
      if edge.2 ∈ path_tokens then acc
      else
        let new_path_tokens := path_tokens ++ [edge.2]
        let new_path_pools := path_pools ++ [edge.1]
        if edge.2 = dst then
          (acc.1 ++ [{ tokens := new_path_tokens, pools := new_path_pools }], acc.2)
        else
          (acc.1, acc.2 ++ [(edge.2, new_path_tokens, new_path_pools)]))
    (fun acc =>
      (∀ r ∈ acc.1, r.tokens.Nodup ∧ r.pools.length ≤ max_depth) ∧
      (∀ it ∈ acc.2, it.2.1.Nodup))
    ?_ (adj current) (routes, queue) ⟨hroutes, hqueue⟩
  · exact ⟨this.1, this.2⟩
  · intro b e hb
    dsimp only
    by_cases hmem : e.2 ∈ path_tokens
    · rw [if_pos hmem]
      exact hb
    · rw [if_neg hmem]
      have hnodup : (path_tokens ++ [e.2]).Nodup := by
        simp [List.nodup_append, hpt, hmem]
      by_cases hdst : e.2 = dst
      · rw [if_pos hdst]
        refine ⟨?_, hb.2⟩
        intro r hr
        rcases List.mem_append.1 hr with h | h
        · exact hb.1 r h
        · simp only [List.mem_singleton] at h
          subst h
          refine ⟨hnodup, ?_⟩
          simp only [List.length_append, List.length_cons, List.length_nil]
          omega
      · rw [if_neg hdst]
        refine ⟨hb.1, ?_⟩
        intro it hit
        rcases List.mem_append.1 hit with h | h
        · exact hb.2 it h
        · simp only [List.mem_singleton] at h
          subst h
          exact hnodup

/-- Invariants carried by the whole BFS loop. -/
theorem bfs_loop_inv (adj : Address → List (Address × Address)) (dst : Address)
    (max_depth : Nat) :
    ∀ (fuel : Nat) (queue : List (Address × List Address × List Address))
      (routes : List Route),
    (∀ it ∈ queue, it.2.1.Nodup) →
    (∀ r ∈ routes, r.tokens.Nodup ∧ r.pools.length ≤ max_depth) →
    ∀ r ∈ bfs_loop adj dst max_depth fuel queue routes,
      r.tokens.Nodup ∧ r.pools.length ≤ max_depth := by
  intro fuel
  induction fuel with
  | zero => intro queue routes _ hroutes r hr; exact hroutes r hr
  | succ fuel ih =>
    intro queue routes hqueue hroutes r hr
    match queue with
    | [] => exact hroutes r hr
    | (current, path_tokens, path_pools) :: rest =>
      rw [bfs_loop] at hr
      split at hr
      · exact ih rest routes (fun it hit => hqueue it (List.mem_cons_of_mem _ hit))
          hroutes r hr
      · rename_i hdepth
        have hpt : path_tokens.Nodup := hqueue _ (List.mem_cons_self _ _)
        have hext := bfs_extend_inv adj dst max_depth path_tokens path_pools current
          routes rest hpt (by omega)
          hroutes (fun it hit => hqueue it (List.mem_cons_of_mem _ hit))
        exact ih _ _ hext.2 hext.1 r hr

/-- Deduplication only drops routes. -/
theorem deduplicate_routes_subset (routes : List Route) :
    ∀ r ∈ deduplicate_routes routes, r ∈ routes := by
  unfold deduplicate_routes
  have hgen : ∀ (l : List Route) (acc : List (List Address) × List Route),
      ∀ r ∈ (l.foldl (fun acc route =>
        if route.pools ∈ acc.1 then acc
        else (route.pools :: acc.1, acc.2 ++ [route])) acc).2,
      r ∈ acc.2 ∨ r ∈ l := by
    intro l
    induction l with
    | nil => intro acc r hr; exact Or.inl hr
    | cons hd tl ih =>
      intro acc r hr
      rw [List.foldl_cons] at hr
      by_cases hmem : hd.pools ∈ acc.1
      · rw [if_pos hmem] at hr
        rcases ih acc r hr with h | h
        · exact Or.inl h
        · exact Or.inr (List.mem_cons_of_mem _ h)
      · rw [if_neg hmem] at hr
        rcases ih _ r hr with h | h
        · rcases List.mem_append.1 h with h2 | h2
          · exact Or.inl h2
          · simp at h2
            subst h2
            exact Or.inr (List.mem_cons_self _ _)
        · exact Or.inr (List.mem_cons_of_mem _ h)
  intro r hr
  rcases hgen routes ([], []) r hr with h | h
  · simp at h
  · exact h

/-- Counterexample to C6 as stated: a pool whose two tokens coincide makes
the direct enumeration emit a route with a repeated token, and a router
constructed with `max_hops = 0` still emits one-pool direct routes, so the
enumerated path length can exceed `max_hops`. -/
theorem find_all_routes_bounds_counterexample :
    ({ tokens := [7, 7], pools := [100] } : Route) ∈
      (Router.new .Price 4).find_all_routes 10
        [{ address := 100, token0 := 7, token1 := 7, reserve0 := 1, reserve1 := 1,
           fee_bps := 30, dex_name := "D", last_updated := 0 }] 7 7 ∧
    ¬ ([7, 7] : List Address).Nodup ∧
    ({ tokens := [1, 2], pools := [100] } : Route) ∈
      (Router.new .Price 0).find_all_routes 10
        [{ address := 100, token0 := 1, token1 := 2, reserve0 := 1, reserve1 := 1,
           fee_bps := 30, dex_name := "D", last_updated := 0 }] 1 2 ∧
    ¬ ({ tokens := [1, 2], pools := [100] } : Route).pools.length ≤
        (Router.new .Price 0).max_hops := by
  refine ⟨by decide, by decide, by decide, by decide⟩

/-- C6 (amended): with `max_hops` clamped to at most 4 at construction,
every enumerated route over pools with two distinct tokens has no repeated
tokens and uses at most `max (1, max_hops)` pools (direct one-hop routes
are enumerated even when `max_hops = 0`; see the counterexample). -/
theorem find_all_routes_bounds (fuel : Nat) (opt : OptimizationStrategy)
    (mh : Nat) (pools : List PoolInfo) (tin tout : Address)
    (hpools : ∀ p ∈ pools, p.token0 ≠ p.token1) :
    (Router.new opt mh).max_hops ≤ 4 ∧
    ∀ route ∈ (Router.new opt mh).find_all_routes fuel pools tin tout,
      route.tokens.Nodup ∧
      route.pools.length ≤ max 1 (Router.new opt mh).max_hops := by
  constructor
  · exact Nat.min_le_right mh 4
  · intro route hroute
    unfold Router.find_all_routes at hroute
    dsimp only at hroute
    have hroute2 := deduplicate_routes_subset _ route hroute
    rcases List.mem_append.1 hroute2 with hdir | hmulti
    · rw [mem_foldl_append] at hdir
      rcases hdir with h | ⟨e, he, hx⟩
      · simp at h
      · split at hx
        · rename_i hedst
          simp only [List.mem_singleton] at hx
          subst hx
          have hne := adjacency_ne pools tin hpools e he
          rw [hedst] at hne
          constructor
          · simp only [List.nodup_cons, List.mem_singleton, List.nodup_nil,
              and_true, List.not_mem_nil, not_false_iff]
            exact fun hcon => hne hcon.symm
          · simp only [List.length_cons, List.length_nil]
            exact le_max_left 1 _
        · simp at hx
    · by_cases hmh : 1 < (Router.new opt mh).max_hops
      · rw [if_pos hmh] at hmulti
        unfold bfs_routes at hmulti
        have hinv := bfs_loop_inv (build_adjacency_map pools) tout
          (Router.new opt mh).max_hops fuel [(tin, [tin], [])] []
          (by
            intro it hit
            simp only [List.mem_singleton] at hit
            subst hit
            simp)
          (by intro r hr; simp at hr)
          route hmulti
        exact ⟨hinv.1, le_trans hinv.2 (le_max_right 1 _)⟩
      · rw [if_neg hmh] at hmulti
        simp at hmulti

/-- Witness for the amended C6 theorem at a concrete input. -/
theorem find_all_routes_bounds_witness :
    ({ tokens := [1, 2], pools := [100] } : Route).tokens.Nodup ∧
    ({ tokens := [1, 2], pools := [100] } : Route).pools.length ≤
      max 1 (Router.new .Price 3).max_hops :=
  (find_all_routes_bounds 10 .Price 3
    [{ address := 100, token0 := 1, token1 := 2, reserve0 := 5, reserve1 := 5,
       fee_bps := 30, dex_name := "D", last_updated := 0 }] 1 2 (by decide)).2
    { tokens := [1, 2], pools := [100] } (by decide)

/-- The comparison step of `find_best_direct_pool`: keep the later quote
only when it is strictly better. -/
def best_step (best : Option QuoteResult) (quote : QuoteResult) : Option QuoteResult :=
  match best with
  | some current =>
    if quote.amount_out > current.amount_out then some quote else some current
  | none => some quote

/-- The pool fold of `find_best_direct_pool` equals the quote fold over the
successfully quoted pools. -/
theorem fold_best_eq (tin : Address) (a : Nat) :
    ∀ (l : List PoolInfo) (b : Option QuoteResult),
    l.foldl (fun best p =>
      match calculate_pool_output p tin a with
      | .ok quote =>
        match best with
        | some current =>
          if quote.amount_out > current.amount_out then some quote else some current
        | none => some quote
      | .error _ => best) b =
    (l.filterMap (fun p => (calculate_pool_output p tin a).toOption)).foldl best_step b := by
  intro l
  induction l with
  | nil => intro b; rfl
  | cons hd tl ih =>
    intro b
    rw [List.foldl_cons, List.filterMap_cons]
    cases hcalc : calculate_pool_output hd tin a with
    | ok q =>
      dsimp only [Except.toOption, List.foldl_cons]
      rw [ih]
      rfl
    | error e =>
      dsimp only [Except.toOption]
      exact ih b

/-- The quote fold returns the first quote attaining the maximal output. -/
theorem fold_argmax_first :
    ∀ (l : List QuoteResult) (c d : QuoteResult),
    l.foldl best_step (some c) = some d →
    ∃ l1 l2, c :: l = l1 ++ d :: l2 ∧
      (∀ x ∈ l1, x.amount_out < d.amount_out) ∧
      (∀ x ∈ l2, x.amount_out ≤ d.amount_out) := by
  intro l
  induction l with
  | nil =>
    intro c d h
    simp only [List.foldl_nil, Option.some.injEq] at h
    subst h
    exact ⟨[], [], rfl, by simp, by simp⟩
  | cons q t ih =>
    intro c d h
    rw [List.foldl_cons] at h
    by_cases hq : c.amount_out < q.amount_out
    · rw [show best_step (some c) q = some q by simp [best_step, hq]] at h
      obtain ⟨l1, l2, heq, h1, h2⟩ := ih q d h
      have hq_cases : q = d ∨ q ∈ l1 := by
        cases l1 with
        | nil =>
          simp only [List.nil_append, List.cons.injEq] at heq
          exact Or.inl heq.1
        | cons y m =>
          simp only [List.cons_append, List.cons.injEq] at heq
          exact Or.inr (heq.1 ▸ List.mem_cons_self y m)
      have hcd : c.amount_out < d.amount_out := by
        rcases hq_cases with rfl | hmem
        · exact hq
        · exact lt_trans hq (h1 q hmem)
      refine ⟨c :: l1, l2, ?_, ?_, h2⟩
      · rw [List.cons_append, ← heq]
      · intro x hx
        rcases List.mem_cons.1 hx with rfl | hx
        · exact hcd
        · exact h1 x hx
    · rw [show best_step (some c) q = some c by simp [best_step, hq]] at h
      obtain ⟨l1, l2, heq, h1, h2⟩ := ih c d h
      cases l1 with
      | nil =>
        simp only [List.nil_append, List.cons.injEq] at heq
        obtain ⟨rfl, rfl⟩ := heq
        refine ⟨[], q :: t, rfl, by simp, ?_⟩
        intro x hx
        rcases List.mem_cons.1 hx with rfl | hx
        · omega
        · exact h2 x hx
      | cons y m =>
        simp only [List.cons_append, List.cons.injEq] at heq
        obtain ⟨rfl, ht⟩ := heq
        refine ⟨c :: q :: m, l2, ?_, ?_, h2⟩
        · rw [ht]
          simp
        · intro x hx
          have hcd : c.amount_out < d.amount_out := h1 c (List.mem_cons_self c m)
          rcases List.mem_cons.1 hx with rfl | hx
          · exact hcd
          · rcases List.mem_cons.1 hx with rfl | hx
            · omega
            · exact h1 x (List.mem_cons_of_mem c hx)

/-- C7: `find_best_direct_pool` fails with `NoRouteFound` when no pool
carries the unordered pair, and otherwise any quote it returns is the
first quote of maximal `amount_out` among the successfully quoted matching
pools (earlier quotes are strictly worse, later ones no better). -/
theorem find_best_direct_pool_spec (pools : List PoolInfo) (tin tout : Address)
    (a : Nat) (ha : 0 < a) :
    (pools.filter (fun p =>
        (p.token0 = tin ∧ p.token1 = tout) ∨
        (p.token0 = tout ∧ p.token1 = tin)) = [] →
      find_best_direct_pool pools tin tout a = .error .NoRouteFound) ∧
    (∀ q, find_best_direct_pool pools tin tout a = .ok q →
      ∃ l1 l2,
        (pools.filter (fun p =>
          (p.token0 = tin ∧ p.token1 = tout) ∨
          (p.token0 = tout ∧ p.token1 = tin))).filterMap
            (fun p => (calculate_pool_output p tin a).toOption) = l1 ++ q :: l2 ∧
        (∀ x ∈ l1, x.amount_out < q.amount_out) ∧
        (∀ x ∈ l2, x.amount_out ≤ q.amount_out)) := by
  constructor
  · intro hempty
    unfold find_best_direct_pool
    rw [hempty]
    rfl
  · intro q h
    unfold find_best_direct_pool at h
    dsimp only at h
    split at h
    · simp at h
    · rw [fold_best_eq] at h
      split at h
      · rename_i q' heq
        simp only [Except.ok.injEq] at h
        subst h
        cases hquotes : (pools.filter (fun p =>
            (p.token0 = tin ∧ p.token1 = tout) ∨
            (p.token0 = tout ∧ p.token1 = tin))).filterMap
              (fun p => (calculate_pool_output p tin a).toOption) with
        | nil =>
          rw [hquotes] at heq
          simp at heq
        | cons q0 rest =>
          rw [hquotes] at heq
          rw [List.foldl_cons] at heq
          rw [show best_step none q0 = some q0 from rfl] at heq
          obtain ⟨l1, l2, hsplit, h1, h2⟩ := fold_argmax_first rest q0 q' heq
          exact ⟨l1, l2, by rw [hsplit], h1, h2⟩
      · simp at h

/-- Witness for the C7 theorem at a concrete input: an empty pool list has
no matching pool, so the lookup fails with `NoRouteFound`. -/
theorem find_best_direct_pool_spec_witness :
    find_best_direct_pool [] 1 2 5 = .error .NoRouteFound :=
  (find_best_direct_pool_spec [] 1 2 5 (by decide)).1 (by decide)

/-- Per-hop shape of a successful `route_output_go` run: hop inputs are the
route tokens without the last, hop outputs the route tokens without the
first, and each hop's input amount is the previous hop's output amount
(the first being the route input). -/
theorem route_output_go_spec :
    ∀ (pools : List PoolInfo) (tokens : List Address) (amt : Nat)
      (hops : List RouteHop),
    tokens.length = pools.length + 1 →
    route_output_go pools tokens amt = .ok hops →
    hops.map (fun h => h.token_in) = tokens.dropLast ∧
    hops.map (fun h => h.token_out) = tokens.tail ∧
    hops.map (fun h => h.amount_in) =
      (amt :: hops.map (fun h => h.amount_out)).dropLast := by
  intro pools
  induction pools with
  | nil =>
    intro tokens amt hops hlen heq
    cases tokens with
    | nil => simp at hlen
    | cons t rest =>
      cases rest with
      | nil =>
        rw [route_output_go] at heq
        simp only [Except.ok.injEq] at heq
        subst heq
        simp
      | cons t2 rest2 => simp at hlen
  | cons p ps ih =>
    intro tokens amt hops hlen heq
    cases tokens with
    | nil => simp at hlen
    | cons t0 rest =>
      cases rest with
      | nil =>
        exfalso
        simp only [List.length_cons, List.length_nil] at hlen
        omega
      | cons t1 ts =>
        rw [route_output_go] at heq
        split at heq
        · simp at heq
        · rename_i quote hq
          split at heq
          · simp at heq
          · rename_i hops' hgo
            simp only [Except.ok.injEq] at heq
            subst heq
            have hlen' : (t1 :: ts).length = ps.length + 1 := by
              simp only [List.length_cons] at hlen ⊢
              omega
            obtain ⟨ha, hb, hc⟩ := ih (t1 :: ts) quote.amount_out hops' hlen' hgo
            refine ⟨?_, ?_, ?_⟩
            · simp only [List.map_cons]
              rw [ha, List.dropLast_cons₂]
            · simp only [List.map_cons, List.tail_cons]
              simp only [List.tail_cons] at hb
              rw [hb]
            · simp only [List.map_cons]
              rw [List.dropLast_cons₂, ← hc]

/-- A fold summing through a projection equals the sum of the mapped list. -/
theorem foldl_add_map_sum {α : Type} (f : α → Nat) :
    ∀ (l : List α) (a : Nat),
    l.foldl (fun acc x => acc + f x) a = a + (l.map f).sum := by
  intro l
  induction l with
  | nil => intro a; simp
  | cons hd tl ih =>
    intro a
    rw [List.foldl_cons, ih, List.map_cons, List.sum_cons]
    omega

/-- The default-headed head is the first element of a nonempty list. -/
theorem headD_eq_getElem_zero {α : Type} (l : List α) (d : α) (h : 0 < l.length) :
    l.headD d = l[0] := by
  cases l with
  | nil => simp at h
  | cons a t => rfl

/-- The default-ended last is the last element of a nonempty list. -/
theorem getLastD_eq_getElem {α : Type} :
    ∀ (l : List α) (d : α) (h : 0 < l.length), l.getLastD d = l[l.length - 1] := by
  intro l
  induction l with
  | nil => intro d h; simp at h
  | cons a t ih =>
    intro d _
    rw [List.getLastD_cons]
    cases t with
    | nil => rfl
    | cons b m =>
      rw [ih a (by simp)]
      apply Option.some.inj
      rw [← List.getElem?_eq_getElem, ← List.getElem?_eq_getElem]
      have h1 : (a :: b :: m).length - 1 = ((b :: m).length - 1) + 1 := by
        simp
      rw [h1, List.getElem?_cons_succ]

/-- C8: every successfully produced `RouteQuote` is well-formed: the first
hop consumes the quote's input token, the last hop produces its output
token, adjacent hops chain both tokens and amounts, and the hop fees and
gas estimates sum to the quote totals. -/
theorem calculate_route_quote_wellformed (r : Router) (route : Route)
    (pools : List PoolInfo) (amount_in : Nat) (q : RouteQuote)
    (h : r.calculate_route_quote route pools amount_in = .ok q) :
    q.hops ≠ [] ∧
    (∀ h0 : 0 < q.hops.length, (q.hops[0]).token_in = q.token_in) ∧
    (∀ hn : q.hops ≠ [], (q.hops.getLast hn).token_out = q.token_out) ∧
    (∀ i, ∀ hi : i + 1 < q.hops.length,
      (q.hops[i]).token_out = (q.hops[i + 1]).token_in ∧
      (q.hops[i]).amount_out = (q.hops[i + 1]).amount_in) ∧
    (q.hops.map (fun hh => hh.fee)).sum = q.total_fee ∧
    (q.hops.map (fun hh => hh.gas_estimate)).sum = q.gas_estimate := by
  unfold Router.calculate_route_quote at h
  dsimp only at h
  split at h
  · simp at h
  · split at h
    · simp at h
    · rename_i hops hgo
      simp only [Except.ok.injEq] at h
      subst h
      dsimp only
      unfold calculate_route_output at hgo
      split at hgo
      · simp at hgo
      · rename_i hcond
        push_neg at hcond
        obtain ⟨hne0, hlen0⟩ := hcond
        obtain ⟨ha, hb, hc⟩ := route_output_go_spec _ _ _ _ hlen0 hgo
        have hn : hops.length = route.tokens.length - 1 := by
          have := congrArg List.length ha
          simpa using this
        have hL2 : 2 ≤ route.tokens.length := by
          have hlp : 0 < (route.pools.filterMap (fun addr =>
              pools.find? (fun p => p.address = addr))).length := by
            cases hfp : route.pools.filterMap (fun addr =>
                pools.find? (fun p => p.address = addr)) with
            | nil => rw [hfp] at hne0; simp at hne0
            | cons a t => simp
          omega
        have hnpos : 0 < hops.length := by omega
        have hhne : hops ≠ [] := List.length_pos.mp hnpos
        have hA : ∀ i : Nat, (hops[i]?).map (fun hh : RouteHop => hh.token_in) =
            route.tokens.dropLast[i]? := by
          intro i
          rw [← List.getElem?_map, ha]
        have hB : ∀ i : Nat, (hops[i]?).map (fun hh : RouteHop => hh.token_out) =
            route.tokens.tail[i]? := by
          intro i
          rw [← List.getElem?_map, hb]
        have hC : ∀ i : Nat, (hops[i]?).map (fun hh : RouteHop => hh.amount_in) =
            ((amount_in :: hops.map (fun hh : RouteHop => hh.amount_out)).dropLast)[i]? := by
          intro i
          rw [← List.getElem?_map, hc]
        refine ⟨hhne, ?_, ?_, ?_, ?_, ?_⟩
        · intro h0
          have e1 := hA 0
          rw [List.getElem?_eq_getElem h0, List.dropLast_eq_take,
            List.getElem?_take, if_pos (by omega : 0 < route.tokens.length - 1),
            List.getElem?_eq_getElem (by omega : 0 < route.tokens.length)] at e1
          simp only [Option.map_some'] at e1
          rw [headD_eq_getElem_zero route.tokens 0 (by omega)]
          exact Option.some.inj e1
        · intro hn'
          rw [List.getLast_eq_getElem]
          have e1 := hB (hops.length - 1)
          rw [List.getElem?_eq_getElem (by omega : hops.length - 1 < hops.length),
            List.getElem?_tail] at e1
          have e2 : hops.length - 1 + 1 = route.tokens.length - 1 := by omega
          rw [e2, List.getElem?_eq_getElem
            (by omega : route.tokens.length - 1 < route.tokens.length)] at e1
          simp only [Option.map_some'] at e1
          rw [getLastD_eq_getElem route.tokens 0 (by omega)]
          exact Option.some.inj e1
        · intro i hi
          constructor
          · have e1 := hB i
            rw [List.getElem?_eq_getElem (by omega : i < hops.length),
              List.getElem?_tail] at e1
            have e2 := hA (i + 1)
            rw [List.getElem?_eq_getElem (by omega : i + 1 < hops.length),
              List.dropLast_eq_take, List.getElem?_take,
              if_pos (by omega : i + 1 < route.tokens.length - 1)] at e2
            simp only [Option.map_some'] at e1 e2
            exact Option.some.inj (e1.trans e2.symm)
          · have f1 := hC (i + 1)
            rw [List.getElem?_eq_getElem (by omega : i + 1 < hops.length),
              List.dropLast_eq_take, List.getElem?_take,
              if_pos (by
                simp only [List.length_cons, List.length_map]
                omega),
              List.getElem?_cons_succ, List.getElem?_map,
              List.getElem?_eq_getElem (by omega : i < hops.length)] at f1
            simp only [Option.map_some'] at f1
            exact (Option.some.inj f1).symm
        · have hsum := foldl_add_map_sum (fun hh => hh.fee) hops 0
          omega
        · have hsum := foldl_add_map_sum (fun hh => hh.gas_estimate) hops 0
          omega

/-- The concrete two-hop quote used to witness the C8 theorem. -/
def witness_quote : RouteQuote :=
  { token_in := 1
    token_out := 3
    amount_in := 100
    amount_out := 248
    hops := [{ pool := 100, token_in := 1, token_out := 2, dex_name := "D",
               amount_in := 100, amount_out := 181, fee := 0,
               gas_estimate := 100000 },
             { pool := 101, token_in := 2, token_out := 3, dex_name := "D",
               amount_in := 181, amount_out := 248, fee := 0,
               gas_estimate := 100000 }]
    total_fee := 0
    gas_estimate := 200000
    price_impact_bps := 20 }

/-- Witness for the C8 theorem on a concrete two-hop route. -/
theorem calculate_route_quote_wellformed_witness :
    witness_quote.hops ≠ [] ∧
    (witness_quote.hops.map (fun hh => hh.fee)).sum = witness_quote.total_fee ∧
    (witness_quote.hops.map (fun hh => hh.gas_estimate)).sum =
      witness_quote.gas_estimate := by
  have h := calculate_route_quote_wellformed (Router.new .Price 3)
    { tokens := [1, 2, 3], pools := [100, 101] }
    [{ address := 100, token0 := 1, token1 := 2, reserve0 := 1000,
       reserve1 := 2000, fee_bps := 30, dex_name := "D", last_updated := 0 },
     { address := 101, token0 := 2, token1 := 3, reserve0 := 2000,
       reserve1 := 3000, fee_bps := 30, dex_name := "D", last_updated := 0 }]
    100 witness_quote (by decide)
  exact ⟨h.1, h.2.2.2.2.1, h.2.2.2.2.2⟩

/-- C9: querying the aggregator facade with an empty pool cache fails with
`PoolNotFound` (for `get_top_quotes` and hence for `get_best_quote`)
rather than returning an empty route list. -/
theorem get_top_quotes_empty_cache (fuel : Nat) (cfg : Config)
    (token_in token_out : Address) (amount_in : Nat)
    (optimization : OptimizationStrategy) (limit : Nat) :
    (Aggregator.mk [] cfg).get_top_quotes fuel token_in token_out amount_in
      optimization limit = .error .PoolNotFound ∧
    (Aggregator.mk [] cfg).get_best_quote fuel token_in token_out amount_in
      optimization = .error .PoolNotFound := by
  constructor
  · rfl
  · rfl
